import Mathlib

/-!
Verification of the background task engine in
`backend/app/core/background_tasks.py` (`BackgroundTaskManager`).

The Python module is shallowly embedded: the job table (`self.tasks`, a
Python dict) becomes an association list from task id to `Task`; the
`asyncio.PriorityQueue` becomes an optional list of `(−priority, id)`
entries from which a pop always removes the minimal entry under Python's
lexicographic tuple order; timestamps (`datetime.utcnow()`) become `Int`
values supplied by the caller of each operation, measured in hours so that
`timedelta(hours=h)` is plain subtraction; a job body (`task.func`) becomes
its one observable outcome, `Except String Int`: `.ok v` for a normal
return of `v` and `.error msg` for a raised exception whose `str()` is
`msg` (any string, including the empty one, as for `Exception()`).
-/

namespace BackgroundTasks

/-- `TaskStatus` enum from the source. -/
inductive TaskStatus
  | pending
  | running
  | completed
  | failed
  | cancelled
deriving DecidableEq, Repr

/-- `TaskPriority(int, Enum)` from the source. -/
inductive TaskPriority
  | low
  | medium
  | high
  | critical
deriving DecidableEq, Repr

/-- The integer value of each `TaskPriority` member (LOW = 0 .. CRITICAL = 3). -/
def TaskPriority.value : TaskPriority → Int
  | .low => 0
  | .medium => 1
  | .high => 2
  | .critical => 3

instance {ε α : Type} [DecidableEq ε] [DecidableEq α] :
    DecidableEq (Except ε α) := fun a b =>
  match a, b with
  | .ok x, .ok y =>
    if h : x = y then isTrue (by rw [h])
    else isFalse (by intro hh; cases hh; exact h rfl)
  | .error x, .error y =>
    if h : x = y then isTrue (by rw [h])
    else isFalse (by intro hh; cases hh; exact h rfl)
  | .ok _, .error _ => isFalse (by intro h; cases h)
  | .error _, .ok _ => isFalse (by intro h; cases h)

/-- The `Task` dataclass: one Job Record of the Job Table. `func` is the
job body's outcome (normal value or raised-exception message). -/
structure Task where
  id : String
  name : String
  func : Except String Int
  priority : TaskPriority
  status : TaskStatus := .pending
  result : Option Int := none
  error : Option String := none
  created_at : Int
  started_at : Option Int := none
  completed_at : Option Int := none
deriving DecidableEq, Repr

/-- A Job Queue entry, `(-priority.value, task_id)` as built by `submit`. -/
abbrev QueueEntry := Int × String

/-- The entry `submit` pushes: `(-priority.value, task_id)`. -/
def queueEntry (p : TaskPriority) (id : String) : QueueEntry :=
  (-p.value, id)

/-- The visible state of a `BackgroundTaskManager`: `tasks` is the dict
`self.tasks` (insertion-ordered association list), `queue` is
`self.queue` (`none` models the `None` it holds before `start`),
`running` is `self.running`. -/
structure ManagerState where
  tasks : List (String × Task) := []
  queue : Option (List QueueEntry) := none
  running : Bool := false
deriving Repr

/-- The state produced by `__init__`: empty table, no queue, not running. -/
def initState : ManagerState := {}

/-- `self.tasks.get(task_id)`: first association with the given key. -/
def lookupTask : List (String × Task) → String → Option Task
  | [], _ => none
  | (k, t) :: rest, id => if k = id then some t else lookupTask rest id

/-- `self.tasks[task_id] = task`: dict assignment — replace the value at an
existing key in place, otherwise append (Python dicts preserve insertion
order and append new keys at the end). -/
def setTask : List (String × Task) → String → Task → List (String × Task)
  | [], id, t => [(id, t)]
  | (k, u) :: rest, id, t =>
    if k = id then (id, t) :: rest else (k, u) :: setTask rest id t

/-- Python's `str` comparison, `<` on the code-point sequences: strict
lexicographic order on the character lists. (Lean's own `String.lt` is
the same relation, but its `String.ltb` implementation does not compute
inside the kernel, so the recursion is spelled out.) -/
def charListLt : List Char → List Char → Bool
  | [], [] => false
  | [], _ :: _ => true
  | _ :: _, [] => false
  | a :: as, b :: bs =>
    decide (a < b) || (decide (a = b) && charListLt as bs)

/-- Python `a < b` on strings. -/
def strLt (a b : String) : Bool := charListLt a.data b.data

/-- Python's lexicographic order on `(int, str)` tuples (non-strict), as
used by the heap inside `asyncio.PriorityQueue` to compare queue
entries. -/
def entryLE (a b : QueueEntry) : Prop :=
  a.1 < b.1 ∨ (a.1 = b.1 ∧ (strLt a.2 b.2 = true ∨ a.2 = b.2))

instance (a b : QueueEntry) : Decidable (entryLE a b) := by
  unfold entryLE; infer_instance

/-- Strict version of the tuple order. -/
def entryLT (a b : QueueEntry) : Prop :=
  a.1 < b.1 ∨ (a.1 = b.1 ∧ strLt a.2 b.2 = true)

instance (a b : QueueEntry) : Decidable (entryLT a b) := by
  unfold entryLT; infer_instance

/-- `await self.queue.get()` on a `PriorityQueue`: remove and return a
minimal entry under the tuple order (`none` on an empty queue, where the
worker's 1-second `wait_for` would time out instead). -/
def popMin : List QueueEntry → Option (QueueEntry × List QueueEntry)
  | [] => none
  | e :: es =>
    match popMin es with
    | none => some (e, [])
    | some (m, rest) =>
      if entryLE e m then some (e, es) else some (m, e :: rest)

/-- The order in which worker loops drain a queue: iterated `popMin`.
Fuel-indexed so that it computes by structural recursion. -/
def dequeueN : Nat → List QueueEntry → List QueueEntry
  | 0, _ => []
  | n + 1, q =>
    match popMin q with
    | none => []
    | some (e, q') => e :: dequeueN n q'

/-- The full dequeue order of a queue's current contents. -/
def dequeueList (q : List QueueEntry) : List QueueEntry :=
  dequeueN q.length q

/-- `start()`: idempotent; sets `running` and creates the (empty) queue. -/
def start (s : ManagerState) : ManagerState :=
  if s.running then s else { s with running := true, queue := some [] }

/-- `stop()`: clears `running`; the table and queue are untouched. -/
def stop (s : ManagerState) : ManagerState :=
  { s with running := false }

/-- `submit(func, name, priority)`: build a PENDING record, store it in
the table, then push `(-priority.value, id)` onto the queue.  When the
queue is still `None` (`start` never called) the push raises
`AttributeError`; the record insertion has already happened, so the
mutated table is kept and the error is returned in the `Except`. The
fresh `uuid4` id and the `datetime.utcnow()` timestamp are inputs. -/
def submit (s : ManagerState) (now : Int) (id tname : String)
    (func : Except String Int) (priority : TaskPriority) :
    ManagerState × Except String String :=
  let task : Task :=
    { id := id, name := tname, func := func, priority := priority,
      created_at := now }
  let s1 : ManagerState := { s with tasks := setTask s.tasks id task }
  match s1.queue with
  | none => (s1, .error "AttributeError: NoneType has no attribute put")
  | some q =>
    ({ s1 with queue := some (q ++ [queueEntry priority id]) }, .ok id)

/-- `cancel(task_id)`: flip a PENDING record to CANCELLED and return
`true`; otherwise change nothing and return `false`. -/
def cancel (s : ManagerState) (id : String) : ManagerState × Bool :=
  match lookupTask s.tasks id with
  | some t =>
    if t.status = .pending then
      ({ s with tasks := setTask s.tasks id { t with status := .cancelled } },
       true)
    else (s, false)
  | none => (s, false)

/-- `get_pending_count()`: `self.queue.qsize() if self.queue else 0`. -/
def getPendingCount (s : ManagerState) : Nat :=
  match s.queue with
  | none => 0
  | some q => q.length

/-- Is a status terminal, as tested by `cleanup_old_tasks`. -/
def isTerminal : TaskStatus → Bool
  | .completed | .failed | .cancelled => true
  | _ => false

/-- `cleanup_old_tasks`'s removal test on one record:
terminal status, and `completed_at` both set and before the cutoff. -/
def shouldRemove (t : Task) (cutoff : Int) : Bool :=
  isTerminal t.status &&
    (match t.completed_at with
     | some c => decide (c < cutoff)
     | none => false)

/-- `cleanup_old_tasks(max_age_hours)`: delete every record passing
`shouldRemove` against `cutoff = utcnow() - timedelta(hours=max_age_hours)`
and return how many were deleted. -/
def cleanupOldTasks (s : ManagerState) (now maxAgeHours : Int) :
    ManagerState × Nat :=
  let cutoff := now - maxAgeHours
  let kept := s.tasks.filter (fun p => ! shouldRemove p.2 cutoff)
  let removed := (s.tasks.filter (fun p => shouldRemove p.2 cutoff)).length
  ({ s with tasks := kept }, removed)

/-- One pass of the `_worker` loop body in which the queue yields an
entry (or times out on an empty queue). Pops the minimal entry; if the
record is missing or CANCELLED it is discarded untouched; otherwise the
record goes through RUNNING (stamping `started_at := nowStart`), the body
runs, and the record ends COMPLETED with a result or FAILED with
`error := str(e)`, stamping `completed_at := nowEnd`. The second
component reports which task's body was invoked (`none` if none was). -/
def workerStep (s : ManagerState) (nowStart nowEnd : Int) :
    ManagerState × Option String :=
  match s.queue with
  | none => (s, none)
  | some q =>
    match popMin q with
    | none => (s, none)
    | some (e, q') =>
      let s1 : ManagerState := { s with queue := some q' }
      match lookupTask s1.tasks e.2 with
      | none => (s1, none)
      | some t =>
        if t.status = .cancelled then (s1, none)
        else
          let tR : Task := { t with
            status := .running
            started_at := some nowStart }
          match tR.func with
          | .ok v =>
            ({ s1 with tasks := setTask s1.tasks e.2 { tR with
                 status := .completed
                 result := some v
                 completed_at := some nowEnd } },
             some e.2)
          | .error msg =>
            ({ s1 with tasks := setTask s1.tasks e.2 { tR with
                 status := .failed
                 error := some msg
                 completed_at := some nowEnd } },
             some e.2)

/-- One engine operation, with its external inputs (timestamps, the fresh
id `uuid4` would produce, the job body's outcome). -/
inductive Op
  | start
  | stop
  | submit (now : Int) (id tname : String) (func : Except String Int)
      (priority : TaskPriority)
  | cancel (id : String)
  | workerStep (nowStart nowEnd : Int)
  | cleanup (now maxAgeHours : Int)

/-- Apply one operation to the state (return values discarded). -/
def applyOp (s : ManagerState) : Op → ManagerState
  | .start => start s
  | .stop => stop s
  | .submit now id tname f p => (submit s now id tname f p).1
  | .cancel id => (cancel s id).1
  | .workerStep a b => (workerStep s a b).1
  | .cleanup now h => (cleanupOldTasks s now h).1

/-- Run a sequence of operations from a state. -/
def runOps (s : ManagerState) (ops : List Op) : ManagerState :=
  ops.foldl applyOp s

/-- The timestamp/status relationship the code actually maintains on a
Job Record: `completed_at` is set exactly on COMPLETED and FAILED records
(`cancel` flips a PENDING record to CANCELLED without stamping it). -/
def statusTimeInv (t : Task) : Prop :=
  t.completed_at.isSome ↔ (t.status = .completed ∨ t.status = .failed)

/-- The invariant over the whole Job Table. -/
def tableInv (s : ManagerState) : Prop :=
  ∀ p ∈ s.tasks, statusTimeInv p.2

end BackgroundTasks

namespace BackgroundTasks

theorem string_data_inj {x y : String} (h : x.data = y.data) : x = y := by
  cases x; cases y; exact congrArg String.mk h

theorem charListLt_irrefl : ∀ as, charListLt as as = false
  | [] => rfl
  | a :: as => by simp [charListLt, charListLt_irrefl as]

theorem charListLt_asymm :
    ∀ as bs, charListLt as bs = true → charListLt bs as = false
  | [], bs => by cases bs <;> simp [charListLt]
  | a :: as, [] => by simp [charListLt]
  | a :: as, b :: bs => by
    intro h
    rw [Bool.eq_false_iff]
    intro hcon
    simp only [charListLt, Bool.or_eq_true, Bool.and_eq_true,
      decide_eq_true_eq] at h hcon
    rcases h with h | ⟨he, hr⟩ <;> rcases hcon with hc | ⟨hce, hcr⟩
    · exact absurd hc (lt_asymm h)
    · exact absurd h (by rw [hce]; exact lt_irrefl a)
    · exact absurd hc (by rw [he]; exact lt_irrefl b)
    · have := charListLt_asymm as bs hr
      rw [hcr] at this
      cases this

theorem charListLt_trans :
    ∀ as bs cs, charListLt as bs = true → charListLt bs cs = true →
      charListLt as cs = true
  | as, [], cs => by cases as <;> simp [charListLt]
  | [], b :: bs, [] => by simp [charListLt]
  | [], b :: bs, c :: cs => by simp [charListLt]
  | a :: as, b :: bs, [] => by simp [charListLt]
  | a :: as, b :: bs, c :: cs => by
    intro h1 h2
    simp only [charListLt, Bool.or_eq_true, Bool.and_eq_true,
      decide_eq_true_eq] at h1 h2 ⊢
    rcases h1 with h1 | ⟨e1, r1⟩ <;> rcases h2 with h2 | ⟨e2, r2⟩
    · exact Or.inl (lt_trans h1 h2)
    · exact Or.inl (e2 ▸ h1)
    · exact Or.inl (e1 ▸ h2)
    · exact Or.inr ⟨e1.trans e2, charListLt_trans as bs cs r1 r2⟩

theorem charListLt_total :
    ∀ as bs, charListLt as bs = false → charListLt bs as = true ∨ bs = as
  | [], [] => fun _ => Or.inr rfl
  | [], b :: bs => by simp [charListLt]
  | a :: as, [] => fun _ => Or.inl (by simp [charListLt])
  | a :: as, b :: bs => by
    intro h
    simp only [charListLt, Bool.or_eq_false_iff, Bool.and_eq_false_iff,
      decide_eq_false_iff_not] at h
    obtain ⟨hnlt, hrest⟩ := h
    rcases lt_trichotomy a b with hlt | heq | hgt
    · exact absurd hlt hnlt
    · subst heq
      rcases hrest with hne | hr
      · exact absurd rfl hne
      · rcases charListLt_total as bs hr with h' | h'
        · exact Or.inl (by simp [charListLt, h'])
        · exact Or.inr (by rw [h'])
    · exact Or.inl (by simp [charListLt, hgt])

theorem strLt_irrefl (x : String) : strLt x x = false :=
  charListLt_irrefl x.data

theorem strLt_asymm {x y : String} (h : strLt x y = true) :
    strLt y x = false :=
  charListLt_asymm x.data y.data h

theorem strLt_trans {x y z : String} (h1 : strLt x y = true)
    (h2 : strLt y z = true) : strLt x z = true :=
  charListLt_trans x.data y.data z.data h1 h2

theorem strLt_total {x y : String} (h : strLt x y = false) :
    strLt y x = true ∨ y = x := by
  rcases charListLt_total x.data y.data h with h' | h'
  · exact Or.inl h'
  · exact Or.inr (string_data_inj h')

theorem entryLE_refl (a : QueueEntry) : entryLE a a :=
  Or.inr ⟨rfl, Or.inr rfl⟩

theorem entryLE_trans {a b c : QueueEntry} (h1 : entryLE a b)
    (h2 : entryLE b c) : entryLE a c := by
  rcases h1 with h1 | ⟨e1, s1⟩ <;> rcases h2 with h2 | ⟨e2, s2⟩
  · exact Or.inl (lt_trans h1 h2)
  · exact Or.inl (e2 ▸ h1)
  · exact Or.inl (e1 ▸ h2)
  · refine Or.inr ⟨e1.trans e2, ?_⟩
    rcases s1 with s1 | s1 <;> rcases s2 with s2 | s2
    · exact Or.inl (strLt_trans s1 s2)
    · exact Or.inl (s2 ▸ s1)
    · exact Or.inl (s1 ▸ s2)
    · exact Or.inr (s1.trans s2)

theorem entryLE_total {a b : QueueEntry} (h : ¬ entryLE a b) : entryLE b a := by
  rcases lt_trichotomy a.1 b.1 with hlt | heq | hgt
  · exact absurd (Or.inl hlt) h
  · have hns : ¬ (strLt a.2 b.2 = true ∨ a.2 = b.2) :=
      fun hs => h (Or.inr ⟨heq, hs⟩)
    push_neg at hns
    obtain ⟨hnlt, hne⟩ := hns
    rcases strLt_total (Bool.eq_false_iff.mpr hnlt) with h' | h'
    · exact Or.inr ⟨heq.symm, Or.inl h'⟩
    · exact absurd h'.symm hne
  · exact Or.inl hgt

theorem entryLT_not_le {a b : QueueEntry} (h : entryLT a b) : ¬ entryLE b a := by
  rintro (hc | ⟨hce, hcs⟩)
  · rcases h with h | ⟨he, _⟩
    · exact absurd hc (lt_asymm h)
    · exact absurd hc (by rw [he]; exact lt_irrefl b.1)
  · rcases h with h | ⟨he, hs⟩
    · exact absurd h (by rw [hce]; exact lt_irrefl a.1)
    · rcases hcs with hcs | hcs
      · have := strLt_asymm hs
        rw [hcs] at this
        cases this
      · rw [hcs] at hs
        have := strLt_irrefl a.2
        rw [hs] at this
        cases this

theorem entryLT_ne {a b : QueueEntry} (h : entryLT a b) : a ≠ b := by
  rintro rfl
  rcases h with h | ⟨_, hs⟩
  · exact lt_irrefl a.1 h
  · have := strLt_irrefl a.2
    rw [hs] at this
    cases this

end BackgroundTasks

namespace BackgroundTasks

theorem popMin_eq_none {q : List QueueEntry} (h : popMin q = none) : q = [] := by
  cases q with
  | nil => rfl
  | cons e es =>
    cases hp : popMin es with
    | none =>
      simp only [popMin, hp] at h
      exact Option.noConfusion h
    | some p =>
      obtain ⟨m, rest⟩ := p
      simp only [popMin, hp] at h
      by_cases hle : entryLE e m
      · rw [if_pos hle] at h; cases h
      · rw [if_neg hle] at h; cases h

theorem popMin_perm :
    ∀ (q : List QueueEntry) (e : QueueEntry) (q' : List QueueEntry),
      popMin q = some (e, q') → q.Perm (e :: q')
  | [], _, _, h => by cases h
  | x :: xs, e, q', h => by
    cases hx : popMin xs with
    | none =>
      simp only [popMin, hx] at h
      cases h
      rw [popMin_eq_none hx]
    | some p =>
      obtain ⟨m, rest⟩ := p
      simp only [popMin, hx] at h
      by_cases hle : entryLE x m
      · rw [if_pos hle] at h
        cases h
        exact List.Perm.refl _
      · rw [if_neg hle] at h
        cases h
        have ih := popMin_perm xs e rest hx
        exact (ih.cons x).trans (List.Perm.swap e x rest)

theorem popMin_min :
    ∀ (q : List QueueEntry) (e : QueueEntry) (q' : List QueueEntry),
      popMin q = some (e, q') → ∀ x ∈ q, entryLE e x
  | [], _, _, h => by cases h
  | x :: xs, e, q', h => by
    cases hx : popMin xs with
    | none =>
      simp only [popMin, hx] at h
      cases h
      intro y hy
      rw [popMin_eq_none hx] at hy
      rcases List.mem_singleton.mp hy with rfl
      exact entryLE_refl _
    | some p =>
      obtain ⟨m, rest⟩ := p
      simp only [popMin, hx] at h
      have ih := popMin_min xs m rest hx
      by_cases hle : entryLE x m
      · rw [if_pos hle] at h
        cases h
        intro y hy
        rcases List.mem_cons.mp hy with rfl | hy
        · exact entryLE_refl _
        · exact entryLE_trans hle (ih y hy)
      · rw [if_neg hle] at h
        cases h
        intro y hy
        rcases List.mem_cons.mp hy with rfl | hy
        · exact entryLE_total hle
        · exact ih y hy

theorem dequeueN_subset :
    ∀ (n : Nat) (q : List QueueEntry) (x : QueueEntry),
      x ∈ dequeueN n q → x ∈ q
  | 0, _, _, h => by cases h
  | n + 1, q, x, h => by
    simp only [dequeueN] at h
    cases hp : popMin q with
    | none => rw [hp] at h; cases h
    | some p =>
      obtain ⟨e, q'⟩ := p
      rw [hp] at h
      have hperm := popMin_perm q e q' hp
      rcases List.mem_cons.mp h with rfl | h
      · exact hperm.mem_iff.mpr (List.mem_cons_self _ _)
      · exact hperm.mem_iff.mpr (List.mem_cons_of_mem e (dequeueN_subset n q' x h))

theorem dequeueN_sorted :
    ∀ (n : Nat) (q : List QueueEntry), List.Pairwise entryLE (dequeueN n q)
  | 0, _ => List.Pairwise.nil
  | n + 1, q => by
    simp only [dequeueN]
    cases hp : popMin q with
    | none => exact List.Pairwise.nil
    | some p =>
      obtain ⟨e, q'⟩ := p
      refine List.Pairwise.cons ?_ (dequeueN_sorted n q')
      intro x hx
      have hxq : x ∈ q :=
        (popMin_perm q e q' hp).mem_iff.mpr
          (List.mem_cons_of_mem e (dequeueN_subset n q' x hx))
      exact popMin_min q e q' hp x hxq

theorem dequeueN_perm :
    ∀ (n : Nat) (q : List QueueEntry), q.length ≤ n → (dequeueN n q).Perm q
  | 0, q, h => by
    have hq : q = [] := List.eq_nil_of_length_eq_zero (Nat.le_zero.mp h)
    subst hq
    exact List.Perm.refl _
  | n + 1, q, h => by
    simp only [dequeueN]
    cases hp : popMin q with
    | none =>
      rw [popMin_eq_none hp]
    | some p =>
      obtain ⟨e, q'⟩ := p
      have hperm := popMin_perm q e q' hp
      have hlen : q'.length ≤ n := by
        have := hperm.length_eq
        simp only [List.length_cons] at this
        omega
      exact ((dequeueN_perm n q' hlen).cons e).trans hperm.symm

theorem dequeueList_sorted (q : List QueueEntry) :
    List.Pairwise entryLE (dequeueList q) :=
  dequeueN_sorted q.length q

theorem dequeueList_perm (q : List QueueEntry) : (dequeueList q).Perm q :=
  dequeueN_perm q.length q (le_refl _)

/-- In the drain order of any queue, an entry strictly below another under
the tuple order always comes out earlier. -/
theorem dequeue_index_lt (q : List QueueEntry) (a b : QueueEntry)
    (hab : entryLT a b) (i j : Fin (dequeueList q).length)
    (ha : (dequeueList q).get i = a) (hb : (dequeueList q).get j = b) :
    (i : Nat) < (j : Nat) := by
  rcases Nat.lt_trichotomy (i : Nat) (j : Nat) with h | h | h
  · exact h
  · exfalso
    have : i = j := Fin.ext h
    rw [this, hb] at ha
    exact entryLT_ne hab ha.symm
  · exfalso
    have hle := List.pairwise_iff_get.mp (dequeueList_sorted q) j i h
    rw [ha, hb] at hle
    exact entryLT_not_le hab hle

end BackgroundTasks

namespace BackgroundTasks

/-- Dict assignment then lookup of the same key yields the new value. -/
theorem lookupTask_setTask_self :
    ∀ (l : List (String × Task)) (id : String) (t : Task),
      lookupTask (setTask l id t) id = some t
  | [], id, t => by simp [setTask, lookupTask]
  | (k, u) :: rest, id, t => by
    by_cases hk : k = id
    · rw [setTask, if_pos hk]
      simp [lookupTask]
    · rw [setTask, if_neg hk]
      simp only [lookupTask, if_neg hk]
      exact lookupTask_setTask_self rest id t

/-- Dict assignment leaves lookups of other keys unchanged. -/
theorem lookupTask_setTask_ne :
    ∀ (l : List (String × Task)) (id id' : String) (t : Task), id' ≠ id →
      lookupTask (setTask l id t) id' = lookupTask l id'
  | [], id, id', t, hne => by
    simp only [setTask, lookupTask]
    rw [if_neg (fun h : id = id' => hne h.symm)]
  | (k, u) :: rest, id, id', t, hne => by
    by_cases hk : k = id
    · rw [setTask, if_pos hk]
      simp only [lookupTask]
      rw [if_neg (fun h : id = id' => hne h.symm),
        if_neg (fun h : k = id' => hne (hk ▸ h).symm)]
    · rw [setTask, if_neg hk]
      simp only [lookupTask]
      by_cases hk' : k = id'
      · rw [if_pos hk', if_pos hk']
      · rw [if_neg hk', if_neg hk']
        exact lookupTask_setTask_ne rest id id' t hne

/-- Every pair of the table after a dict assignment is the new pair or an
old one. -/
theorem mem_setTask :
    ∀ {l : List (String × Task)} {id : String} {t : Task} {p : String × Task},
      p ∈ setTask l id t → p = (id, t) ∨ p ∈ l := by
  intro l
  induction l with
  | nil =>
    intro id t p h
    simp only [setTask] at h
    exact Or.inl (List.mem_singleton.mp h)
  | cons q rest ih =>
    intro id t p h
    obtain ⟨k, u⟩ := q
    by_cases hk : k = id
    · rw [setTask, if_pos hk] at h
      rcases List.mem_cons.mp h with rfl | h
      · exact Or.inl rfl
      · exact Or.inr (List.mem_cons_of_mem _ h)
    · rw [setTask, if_neg hk] at h
      rcases List.mem_cons.mp h with rfl | h
      · exact Or.inr (List.mem_cons_self _ _)
      · rcases ih h with h' | h'
        · exact Or.inl h'
        · exact Or.inr (List.mem_cons_of_mem _ h')

/-- A successful lookup is a member of the table. -/
theorem mem_of_lookupTask :
    ∀ {l : List (String × Task)} {id : String} {t : Task},
      lookupTask l id = some t → (id, t) ∈ l := by
  intro l
  induction l with
  | nil => intro id t h; cases h
  | cons p rest ih =>
    intro id t h
    obtain ⟨k, u⟩ := p
    simp only [lookupTask] at h
    by_cases hk : k = id
    · rw [if_pos hk] at h
      cases h
      exact hk ▸ List.mem_cons_self _ _
    · rw [if_neg hk] at h
      exact List.mem_cons_of_mem _ (ih h)

/-- A key that is not in the table looks up to nothing. -/
theorem lookupTask_eq_none :
    ∀ (l : List (String × Task)) (id : String),
      id ∉ l.map Prod.fst → lookupTask l id = none
  | [], _, _ => rfl
  | (k, u) :: rest, id, h => by
    simp only [List.map_cons, List.mem_cons] at h
    push_neg at h
    simp only [lookupTask]
    rw [if_neg (fun hh : k = id => h.1 hh.symm)]
    exact lookupTask_eq_none rest id h.2

/-- A looked-up record that the filter keeps is still found, unchanged,
after the filter. -/
theorem lookupTask_filter_keep (f : String × Task → Bool) :
    ∀ (l : List (String × Task)) (id : String) (t : Task),
      lookupTask l id = some t → f (id, t) = true →
      lookupTask (l.filter f) id = some t
  | [], id, t, h, _ => by cases h
  | (k, u) :: rest, id, t, h, hf => by
    by_cases hk : k = id
    · subst hk
      simp only [lookupTask, if_pos rfl] at h
      cases h
      rw [List.filter_cons, if_pos hf]
      simp [lookupTask]
    · simp only [lookupTask, if_neg hk] at h
      rw [List.filter_cons]
      by_cases hfk : f (k, u) = true
      · rw [if_pos hfk]
        simp only [lookupTask, if_neg hk]
        exact lookupTask_filter_keep f rest id t h hf
      · rw [if_neg hfk]
        exact lookupTask_filter_keep f rest id t h hf

/-- With no duplicate keys, a looked-up record that the filter drops is
gone after the filter. -/
theorem lookupTask_filter_remove (f : String × Task → Bool) :
    ∀ (l : List (String × Task)) (id : String) (t : Task),
      (l.map Prod.fst).Nodup →
      lookupTask l id = some t → f (id, t) = false →
      lookupTask (l.filter f) id = none
  | [], id, t, _, h, _ => by cases h
  | (k, u) :: rest, id, t, hnd, h, hf => by
    simp only [List.map_cons, List.nodup_cons] at hnd
    obtain ⟨hknot, hndrest⟩ := hnd
    by_cases hk : k = id
    · subst hk
      simp only [lookupTask, if_pos rfl] at h
      cases h
      rw [List.filter_cons, if_neg (fun hcon : f (k, u) = true => by
        rw [hf] at hcon; cases hcon)]
      refine lookupTask_eq_none _ _ (fun hmem => hknot ?_)
      obtain ⟨p, hp, hpk⟩ := List.mem_map.mp hmem
      exact List.mem_map.mpr ⟨p, List.mem_of_mem_filter hp, hpk⟩
    · simp only [lookupTask] at h
      rw [if_neg hk] at h
      rw [List.filter_cons]
      by_cases hfk : f (k, u) = true
      · rw [if_pos hfk]
        simp only [lookupTask]
        rw [if_neg hk]
        exact lookupTask_filter_remove f rest id t hndrest h hf
      · rw [if_neg hfk]
        exact lookupTask_filter_remove f rest id t hndrest h hf

/-- Splitting a list by a predicate preserves total length. -/
theorem length_filter_add {α : Type} (f : α → Bool) :
    ∀ (l : List α),
      (l.filter f).length + (l.filter (fun x => ! f x)).length = l.length
  | [] => rfl
  | a :: as => by
    have ih := length_filter_add f as
    rw [List.filter_cons, List.filter_cons]
    cases f a <;> simp <;> omega

end BackgroundTasks

namespace BackgroundTasks

theorem tableInv_start {s : ManagerState} (hs : tableInv s) :
    tableInv (start s) := by
  unfold start
  split
  · exact hs
  · exact hs

theorem tableInv_submit {s : ManagerState} (hs : tableInv s) (now : Int)
    (id tname : String) (f : Except String Int) (p : TaskPriority) :
    tableInv (submit s now id tname f p).1 := by
  cases hq : s.queue with
  | none =>
    simp only [submit, hq]
    intro pr hmem
    rcases mem_setTask hmem with rfl | hm
    · simp [statusTimeInv]
    · exact hs pr hm
  | some q =>
    simp only [submit, hq]
    intro pr hmem
    rcases mem_setTask hmem with rfl | hm
    · simp [statusTimeInv]
    · exact hs pr hm

theorem tableInv_cancel {s : ManagerState} (hs : tableInv s) (id : String) :
    tableInv (cancel s id).1 := by
  cases hl : lookupTask s.tasks id with
  | none => simp only [cancel, hl]; exact hs
  | some t =>
    by_cases hp : t.status = .pending
    · simp only [cancel, hl, if_pos hp]
      intro pr hmem
      rcases mem_setTask hmem with rfl | hm
      · have hti := hs (id, t) (mem_of_lookupTask hl)
        simp only [statusTimeInv] at hti ⊢
        rw [hp] at hti
        simp only [reduceCtorEq, or_self, iff_false] at hti
        simp [hti]
      · exact hs pr hm
    · simp only [cancel, hl, if_neg hp]
      exact hs

theorem tableInv_workerStep {s : ManagerState} (hs : tableInv s)
    (a b : Int) : tableInv (workerStep s a b).1 := by
  cases hq : s.queue with
  | none => simp only [workerStep, hq]; exact hs
  | some q =>
    cases hp : popMin q with
    | none => simp only [workerStep, hq, hp]; exact hs
    | some pr =>
      obtain ⟨e, q'⟩ := pr
      cases hl : lookupTask s.tasks e.2 with
      | none => simp only [workerStep, hq, hp, hl]; exact hs
      | some t =>
        by_cases hc : t.status = .cancelled
        · simp only [workerStep, hq, hp, hl, if_pos hc]; exact hs
        · cases hf : t.func with
          | ok v =>
            simp only [workerStep, hq, hp, hl, if_neg hc, hf]
            intro pr hmem
            rcases mem_setTask hmem with rfl | hm
            · simp [statusTimeInv]
            · exact hs pr hm
          | error msg =>
            simp only [workerStep, hq, hp, hl, if_neg hc, hf]
            intro pr hmem
            rcases mem_setTask hmem with rfl | hm
            · simp [statusTimeInv]
            · exact hs pr hm

theorem tableInv_cleanup {s : ManagerState} (hs : tableInv s)
    (now h : Int) : tableInv (cleanupOldTasks s now h).1 := by
  intro p hmem
  exact hs p (List.mem_of_mem_filter hmem)

theorem tableInv_applyOp {s : ManagerState} (hs : tableInv s) (op : Op) :
    tableInv (applyOp s op) := by
  cases op with
  | start => exact tableInv_start hs
  | stop => exact hs
  | submit now id tname f p => exact tableInv_submit hs now id tname f p
  | cancel id => exact tableInv_cancel hs id
  | workerStep a b => exact tableInv_workerStep hs a b
  | cleanup now h => exact tableInv_cleanup hs now h

theorem tableInv_runOps :
    ∀ (ops : List Op) (s : ManagerState), tableInv s → tableInv (runOps s ops)
  | [], _, hs => hs
  | op :: ops, s, hs =>
    tableInv_runOps ops (applyOp s op) (tableInv_applyOp hs op)

theorem tableInv_init : tableInv initState :=
  fun p hp => absurd hp (List.not_mem_nil p)

/-- Every state the engine can reach from construction satisfies the
status/timestamp invariant. -/
theorem tableInv_reachable (ops : List Op) :
    tableInv (runOps initState ops) :=
  tableInv_runOps ops initState tableInv_init

end BackgroundTasks

namespace BackgroundTasks

/-- C2: `cancel` returns true and flips the record to CANCELLED exactly
when the record exists and is PENDING at call time; otherwise it returns
false and the whole manager state — the record's every field included —
is unchanged. -/
theorem cancel_spec (s : ManagerState) (id : String) :
    ((cancel s id).2 = true ↔
      ∃ t, lookupTask s.tasks id = some t ∧ t.status = .pending) ∧
    (∀ t, lookupTask s.tasks id = some t → t.status = .pending →
      lookupTask (cancel s id).1.tasks id =
        some { t with status := .cancelled }) ∧
    ((cancel s id).2 = false → (cancel s id).1 = s) := by
  refine ⟨⟨?_, ?_⟩, ?_, ?_⟩
  · intro h
    cases hl : lookupTask s.tasks id with
    | none =>
      simp only [cancel, hl] at h
      exact Bool.noConfusion h
    | some t =>
      by_cases hp : t.status = .pending
      · exact ⟨t, rfl, hp⟩
      · simp only [cancel, hl, if_neg hp] at h
        exact Bool.noConfusion h
  · rintro ⟨t, hl, hp⟩
    simp only [cancel, hl, if_pos hp]
  · intro t hl hp
    simp only [cancel, hl, if_pos hp]
    exact lookupTask_setTask_self s.tasks id _
  · intro h
    cases hl : lookupTask s.tasks id with
    | none => simp only [cancel, hl]
    | some t =>
      by_cases hp : t.status = .pending
      · simp only [cancel, hl, if_pos hp] at h
        exact Bool.noConfusion h
      · simp only [cancel, hl, if_neg hp]

/-- Witness for C2 at a state holding one PENDING record "a". -/
theorem cancel_spec_witness :
    lookupTask (cancel (runOps initState
        [.start, .submit 0 "a" "jobA" (.ok 1) .medium]) "a").1.tasks "a" =
      some { id := "a", name := "jobA", func := .ok 1, priority := .medium,
             status := .cancelled, created_at := 0 } :=
  (cancel_spec (runOps initState
      [.start, .submit 0 "a" "jobA" (.ok 1) .medium]) "a").2.1
    { id := "a", name := "jobA", func := .ok 1, priority := .medium,
      created_at := 0 }
    (by decide) (by decide)

/-- C10: `get_pending_count` is total: it returns 0 when the queue was
never created (engine never started) and the queue's current size
otherwise. -/
theorem getPendingCount_spec (s : ManagerState) :
    (s.queue = none → getPendingCount s = 0) ∧
    (∀ q, s.queue = some q → getPendingCount s = q.length) := by
  constructor
  · intro h
    simp [getPendingCount, h]
  · intro q h
    simp [getPendingCount, h]

/-- Witness for C10 on the never-started initial state. -/
theorem getPendingCount_spec_witness : getPendingCount initState = 0 :=
  (getPendingCount_spec initState).1 rfl

/-- C8: a submit before the first `start` fails with an error, yet the new
PENDING record has already been inserted into the Job Table (the failure
is not atomic), and the queue still does not exist. -/
theorem submit_before_start (s : ManagerState) (now : Int)
    (id tname : String) (func : Except String Int) (p : TaskPriority)
    (hq : s.queue = none) :
    (∃ msg, (submit s now id tname func p).2 = Except.error msg) ∧
    lookupTask (submit s now id tname func p).1.tasks id =
      some { id := id, name := tname, func := func, priority := p,
             created_at := now } ∧
    (submit s now id tname func p).1.queue = none := by
  simp only [submit, hq]
  exact ⟨⟨_, rfl⟩, lookupTask_setTask_self _ _ _, by trivial⟩

/-- Witness for C8 on the freshly constructed manager. -/
theorem submit_before_start_witness :
    (∃ msg, (submit initState 0 "a" "jobA" (.ok 1) .medium).2 =
      Except.error msg) ∧
    lookupTask (submit initState 0 "a" "jobA" (.ok 1) .medium).1.tasks "a" =
      some { id := "a", name := "jobA", func := .ok 1, priority := .medium,
             created_at := 0 } ∧
    (submit initState 0 "a" "jobA" (.ok 1) .medium).1.queue = none :=
  submit_before_start initState 0 "a" "jobA" (.ok 1) .medium rfl

/-- C7: when the popped entry's record is CANCELLED, the worker discards
it: the Job Table is untouched (so the status never becomes RUNNING), no
job body is invoked, and only the queue entry is consumed. -/
theorem cancelled_discarded_at_pop (s : ManagerState) (q : List QueueEntry)
    (e : QueueEntry) (q' : List QueueEntry) (t : Task) (nowS nowE : Int)
    (hq : s.queue = some q) (hpop : popMin q = some (e, q'))
    (ht : lookupTask s.tasks e.2 = some t) (hc : t.status = .cancelled) :
    (workerStep s nowS nowE).1.tasks = s.tasks ∧
    (workerStep s nowS nowE).2 = none ∧
    (workerStep s nowS nowE).1.queue = some q' := by
  simp [workerStep, hq, hpop, ht, hc]

/-- Witness for C7: submit, cancel, then one worker pass — nothing runs. -/
theorem cancelled_discarded_at_pop_witness :
    (workerStep (runOps initState
      [.start, .submit 0 "a" "jobA" (.ok 1) .medium, .cancel "a"]) 1 2).2 =
      none :=
  (cancelled_discarded_at_pop
    (runOps initState
      [.start, .submit 0 "a" "jobA" (.ok 1) .medium, .cancel "a"])
    [queueEntry .medium "a"] (queueEntry .medium "a") [] 
    { id := "a", name := "jobA", func := .ok 1, priority := .medium,
      status := .cancelled, created_at := 0 }
    1 2 (by decide) (by decide) (by decide) (by decide)).2.1

end BackgroundTasks

namespace BackgroundTasks

/-- C1 counterexample: two jobs submitted in the order "b" then "a" at the
same priority are not dequeued in submission order — the first worker
pass runs "a", because the tuple pushed by `submit` carries no sequence
number and ties fall through to the task-id string. -/
theorem fifo_within_priority_counterexample :
    ¬ (∀ (p : TaskPriority) (id1 id2 : String) (nowS nowE : Int),
        (workerStep (runOps initState
          [.start, .submit 0 id1 "job1" (.ok 0) p,
           .submit 1 id2 "job2" (.ok 0) p]) nowS nowE).2 = some id1) := by
  intro h
  exact absurd (h .medium "b" "a" 2 3) (by decide)

/-- C1 (amended): within one priority class, dequeue order is the
lexicographic order of the task-id strings, not submission order: of two
queued entries with equal priority rank, the one whose id sorts lower
always comes out at a strictly earlier position. -/
theorem dequeue_ties_by_id (q : List QueueEntry) (a b : QueueEntry)
    (hp : a.1 = b.1) (hid : strLt a.2 b.2 = true)
    (i j : Fin (dequeueList q).length)
    (ha : (dequeueList q).get i = a) (hb : (dequeueList q).get j = b) :
    (i : Nat) < (j : Nat) :=
  dequeue_index_lt q a b (Or.inr ⟨hp, hid⟩) i j ha hb

/-- Witness for the amended C1 on a two-entry queue. -/
theorem dequeue_ties_by_id_witness : (0 : Nat) < (1 : Nat) :=
  dequeue_ties_by_id [queueEntry .medium "b", queueEntry .medium "a"]
    (queueEntry .medium "a") (queueEntry .medium "b") rfl (by decide)
    ⟨0, by decide⟩ ⟨1, by decide⟩ (by decide) (by decide)

/-- C5: an entry of strictly higher declared priority always dequeues at
a strictly earlier position than any entry of lower priority, wherever
the two sit in the queue (i.e. regardless of submission time). -/
theorem priority_over_arrival (q : List QueueEntry) (p1 p2 : TaskPriority)
    (id1 id2 : String) (hp : p2.value < p1.value)
    (i j : Fin (dequeueList q).length)
    (hi : (dequeueList q).get i = queueEntry p1 id1)
    (hj : (dequeueList q).get j = queueEntry p2 id2) :
    (i : Nat) < (j : Nat) := by
  refine dequeue_index_lt q _ _ (Or.inl ?_) i j hi hj
  simp only [queueEntry]
  exact neg_lt_neg hp

/-- Witness for C5: a CRITICAL entry submitted after a MEDIUM one still
dequeues first. -/
theorem priority_over_arrival_witness : (0 : Nat) < (1 : Nat) :=
  priority_over_arrival [queueEntry .medium "a", queueEntry .critical "z"]
    .critical .medium "z" "a" (by decide) ⟨0, by decide⟩ ⟨1, by decide⟩
    (by decide) (by decide)

/-- C3 counterexample: cancelling a pending job yields a reachable
CANCELLED record whose completed_at is still None, falsifying
"completed_at is set iff status is COMPLETED, FAILED, or CANCELLED". -/
theorem completedAt_iff_terminal_counterexample :
    ¬ (∀ (ops : List Op) (id : String) (t : Task),
        lookupTask (runOps initState ops).tasks id = some t →
        (t.completed_at.isSome = true ↔
          (t.status = .completed ∨ t.status = .failed ∨
           t.status = .cancelled))) := by
  intro h
  have h2 := h [.start, .submit 0 "a" "jobA" (.ok 1) .medium, .cancel "a"]
    "a"
    { id := "a", name := "jobA", func := .ok 1, priority := .medium,
      status := .cancelled, created_at := 0 }
    (by decide)
  simp at h2

/-- C3 (amended): in every reachable state, completed_at is set iff the
status is COMPLETED or FAILED; a CANCELLED record never carries it. -/
theorem completedAt_iff_completed_or_failed (ops : List Op) (id : String)
    (t : Task) (h : lookupTask (runOps initState ops).tasks id = some t) :
    t.completed_at.isSome = true ↔
      (t.status = .completed ∨ t.status = .failed) := by
  have hinv := tableInv_reachable ops (id, t) (mem_of_lookupTask h)
  simpa [statusTimeInv] using hinv

/-- Witness for the amended C3 on a completed record. -/
theorem completedAt_iff_completed_or_failed_witness :
    ((some (2 : Int)).isSome = true ↔
      (TaskStatus.completed = TaskStatus.completed ∨
       TaskStatus.completed = TaskStatus.failed)) :=
  completedAt_iff_completed_or_failed
    [.start, .submit 0 "a" "jobA" (.ok 1) .medium, .workerStep 1 2] "a"
    { id := "a", name := "jobA", func := .ok 1, priority := .medium,
      status := .completed, result := some 1, created_at := 0,
      started_at := some 1, completed_at := some 2 }
    (by decide)

/-- C4 counterexample: a body that raises an exception whose str() is
empty (e.g. `raise Exception()`) leaves error = "" — the record's error
is not a non-empty string, refuting that part of the claim. -/
theorem failed_error_nonempty_counterexample :
    ¬ (∀ (ops : List Op) (id : String) (t : Task),
        lookupTask (runOps initState ops).tasks id = some t →
        t.status = .failed → t.error ≠ some "") := by
  intro h
  exact (h [.start, .submit 0 "a" "jobA" (.error "") .medium,
      .workerStep 1 2] "a"
    { id := "a", name := "jobA", func := .error "", priority := .medium,
      status := .failed, error := some "", created_at := 0,
      started_at := some 1, completed_at := some 2 }
    (by decide) rfl) rfl

/-- C4 (amended): a popped, non-cancelled task whose body raises ends
FAILED with error = str(e) stored (non-null, though possibly the empty
string) and completed_at stamped; the worker returns normally — the
exception is recorded in the table, never propagated out of the step. -/
theorem failing_body_sets_failed (s : ManagerState) (q : List QueueEntry)
    (e : QueueEntry) (q' : List QueueEntry) (t : Task) (msg : String)
    (nowS nowE : Int) (hq : s.queue = some q)
    (hpop : popMin q = some (e, q'))
    (ht : lookupTask s.tasks e.2 = some t) (hc : t.status ≠ .cancelled)
    (hf : t.func = .error msg) :
    lookupTask (workerStep s nowS nowE).1.tasks e.2 = some { t with
      status := .failed
      started_at := some nowS
      error := some msg
      completed_at := some nowE } ∧
    (workerStep s nowS nowE).2 = some e.2 := by
  simp only [workerStep, hq, hpop, ht, if_neg hc, hf]
  exact ⟨lookupTask_setTask_self _ _ _, by trivial⟩

/-- Witness for the amended C4: one failing job is run and recorded. -/
theorem failing_body_sets_failed_witness :
    (workerStep (runOps initState
      [.start, .submit 0 "a" "jobA" (.error "boom") .medium]) 1 2).2 =
      some "a" :=
  (failing_body_sets_failed
    (runOps initState
      [.start, .submit 0 "a" "jobA" (.error "boom") .medium])
    [queueEntry .medium "a"] (queueEntry .medium "a") []
    { id := "a", name := "jobA", func := .error "boom",
      priority := .medium, created_at := 0 }
    "boom" 1 2 (by decide) (by decide) (by decide) (by decide) rfl).2

/-- C9: a CANCELLED record in any reachable state has no completed_at,
and consequently `cleanup_old_tasks` never removes it — whatever the
current time and retention window. -/
theorem cancelled_never_cleaned (ops : List Op) (id : String) (t : Task)
    (h : lookupTask (runOps initState ops).tasks id = some t)
    (hc : t.status = .cancelled) (now maxAge : Int) :
    t.completed_at = none ∧
    lookupTask (cleanupOldTasks (runOps initState ops) now maxAge).1.tasks
      id = some t := by
  have hinv := tableInv_reachable ops (id, t) (mem_of_lookupTask h)
  simp only [statusTimeInv] at hinv
  rw [hc] at hinv
  simp only [reduceCtorEq, or_self, iff_false] at hinv
  have hnone : t.completed_at = none := by
    cases hca : t.completed_at with
    | none => rfl
    | some c => rw [hca] at hinv; simp at hinv
  refine ⟨hnone, ?_⟩
  have hsr : shouldRemove t (now - maxAge) = false := by
    simp [shouldRemove, hnone]
  exact lookupTask_filter_keep
    (fun p => ! shouldRemove p.2 (now - maxAge))
    (runOps initState ops).tasks id t h (by simp [hsr])

/-- Witness for C9: the cancelled record survives a far-future sweep. -/
theorem cancelled_never_cleaned_witness :
    Task.completed_at
      { id := "a", name := "jobA", func := .ok 1, priority := .medium,
        status := .cancelled, created_at := 0 } = none ∧
    lookupTask (cleanupOldTasks (runOps initState
        [.start, .submit 0 "a" "jobA" (.ok 1) .medium, .cancel "a"])
        1000 0).1.tasks "a" =
      some { id := "a", name := "jobA", func := .ok 1, priority := .medium,
             status := .cancelled, created_at := 0 } :=
  cancelled_never_cleaned
    [.start, .submit 0 "a" "jobA" (.ok 1) .medium, .cancel "a"] "a"
    { id := "a", name := "jobA", func := .ok 1, priority := .medium,
      status := .cancelled, created_at := 0 }
    (by decide) rfl 1000 0

end BackgroundTasks

namespace BackgroundTasks

/-- `shouldRemove` spelled out: terminal status and a set, expired
completed_at. -/
theorem shouldRemove_iff (t : Task) (cutoff : Int) :
    shouldRemove t cutoff = true ↔
      (isTerminal t.status = true ∧
        ∃ c, t.completed_at = some c ∧ c < cutoff) := by
  unfold shouldRemove
  cases hca : t.completed_at with
  | none => simp
  | some c => simp

/-- The kept and removed records of one sweep partition the table. -/
theorem length_filter_shouldRemove (l : List (String × Task)) (cutoff : Int) :
    (l.filter (fun p => ! shouldRemove p.2 cutoff)).length +
      (l.filter (fun p => shouldRemove p.2 cutoff)).length = l.length := by
  induction l with
  | nil => rfl
  | cons a as ih =>
    rw [List.filter_cons, List.filter_cons]
    cases shouldRemove a.2 cutoff <;> simp <;> omega

/-- C6: `cleanup_old_tasks` removes exactly the records that are terminal
with a set completed_at older than the cutoff; every other record — in
particular every PENDING or RUNNING one, however old — is still found
unchanged; and the returned count plus the kept records add back up to
the whole table. -/
theorem cleanup_spec (s : ManagerState) (now maxAge : Int)
    (hnd : (s.tasks.map Prod.fst).Nodup) :
    (∀ id t, lookupTask s.tasks id = some t →
      ((isTerminal t.status = true ∧
        ∃ c, t.completed_at = some c ∧ c < now - maxAge) →
        lookupTask (cleanupOldTasks s now maxAge).1.tasks id = none)) ∧
    (∀ id t, lookupTask s.tasks id = some t →
      (¬ (isTerminal t.status = true ∧
          ∃ c, t.completed_at = some c ∧ c < now - maxAge) →
        lookupTask (cleanupOldTasks s now maxAge).1.tasks id = some t)) ∧
    (cleanupOldTasks s now maxAge).1.tasks.length +
      (cleanupOldTasks s now maxAge).2 = s.tasks.length ∧
    (∀ id t, lookupTask s.tasks id = some t →
      (t.status = .pending ∨ t.status = .running) →
      lookupTask (cleanupOldTasks s now maxAge).1.tasks id = some t) := by
  refine ⟨?_, ?_, ?_, ?_⟩
  · intro id t hl hcond
    have hsr : shouldRemove t (now - maxAge) = true :=
      (shouldRemove_iff t (now - maxAge)).mpr hcond
    exact lookupTask_filter_remove _ s.tasks id t hnd hl (by simp [hsr])
  · intro id t hl hcond
    have hsr : shouldRemove t (now - maxAge) = false := by
      rcases hb : shouldRemove t (now - maxAge) with _ | _
      · rfl
      · exact absurd ((shouldRemove_iff t (now - maxAge)).mp hb) hcond
    exact lookupTask_filter_keep _ s.tasks id t hl (by simp [hsr])
  · exact length_filter_shouldRemove s.tasks (now - maxAge)
  · intro id t hl hst
    have hsr : shouldRemove t (now - maxAge) = false := by
      rcases hst with h | h <;> simp [shouldRemove, isTerminal, h]
    exact lookupTask_filter_keep _ s.tasks id t hl (by simp [hsr])

/-- Witness for C6: a sweep at time 100 with a 24-hour window removes an
old COMPLETED record and keeps a PENDING one. -/
theorem cleanup_spec_witness :
    lookupTask (cleanupOldTasks
      { tasks := [
          ("old", { id := "old", name := "j1", func := .ok 1,
                    priority := .medium, status := .completed,
                    result := some 1, created_at := 0,
                    started_at := some 0, completed_at := some 1 }),
          ("pend", { id := "pend", name := "j2", func := .ok 1,
                     priority := .medium, created_at := 0 })],
        queue := some [], running := true } 100 24).1.tasks "old" = none :=
  ((cleanup_spec
    { tasks := [
        ("old", { id := "old", name := "j1", func := .ok 1,
                  priority := .medium, status := .completed,
                  result := some 1, created_at := 0,
                  started_at := some 0, completed_at := some 1 }),
        ("pend", { id := "pend", name := "j2", func := .ok 1,
                   priority := .medium, created_at := 0 })],
      queue := some [], running := true } 100 24 (by decide)).1 "old"
    { id := "old", name := "j1", func := .ok 1, priority := .medium,
      status := .completed, result := some 1, created_at := 0,
      started_at := some 0, completed_at := some 1 }
    (by decide)) ⟨by decide, 1, rfl, by decide⟩

end BackgroundTasks
